import Mathlib

set_option maxRecDepth 400000

/-!
Shallow embedding of the Bingo-Game repository's core
(`src/bingo/views.py`, `src/bingo/models.py`): card-id allocation,
serial-key quota gating, win-line computation, round fingerprinting and
rank assignment.  Python strings are modelled as Lean `String`s (the data
is ASCII throughout); Python ints as `Int`/`Nat`; the relational store as
lists kept in creation (`created_at`) order, since `auto_now_add`
timestamps follow insertion order.
-/

namespace Bingo

/-! ### Decimal rendering and parsing

Models Python `str(int)` / `int(str)` on the ASCII decimal forms used by
the app.  A fuel-indexed digit extractor is used so that everything
reduces inside the kernel. -/

/-- Digit character for `n < 10`. -/
def digitChar (n : Nat) : Char := Char.ofNat (48 + n)

/-- Decimal digits of `n`, least significant first; `fuel` bounds the
recursion (any `fuel > n` is enough, and `fuel = n + 1` is always used). -/
def natDigitsRev : Nat → Nat → List Char
  | 0, _ => []
  | fuel + 1, n =>
      if n < 10 then [digitChar n] else digitChar (n % 10) :: natDigitsRev fuel (n / 10)

/-- Decimal rendering of a natural, as Python `str` produces it. -/
def natStr (n : Nat) : String := String.mk (natDigitsRev (n + 1) n).reverse

/-- Decimal rendering of an integer, as Python `str` produces it. -/
def intStr (i : Int) : String := if i < 0 then "-" ++ natStr (-i).toNat else natStr i.toNat

/-- Value of a digit string (`digitsVal ['4','2'] = 42`). -/
def digitsVal (cs : List Char) : Nat := cs.foldl (fun acc c => 10 * acc + (c.toNat - 48)) 0

/-- Drop leading and trailing whitespace, as Python `str.strip` does. -/
def trimChars (cs : List Char) : List Char :=
  ((cs.dropWhile Char.isWhitespace).reverse.dropWhile Char.isWhitespace).reverse

/-- Python `str.strip()`. -/
def pyStrip (s : String) : String := String.mk (trimChars s.data)

/-- Python `str.split(",")`: split a character list on commas; an empty
input yields one empty token, like `"".split(",") == [""]`. -/
def splitComma (cs : List Char) : List (List Char) :=
  cs.foldr
    (fun c acc =>
      if c = ',' then [] :: acc
      else
        match acc with
        | [] => [[c]]
        | t :: rest => (c :: t) :: rest)
    [[]]

/-- Python `int(token)`: strip whitespace, allow one optional sign, then
require a non-empty run of decimal digits; anything else raises
`ValueError`, modelled as `none`. -/
def parseIntToken (s : String) : Option Int :=
  match trimChars s.data with
  | [] => none
  | '-' :: rest =>
      if rest ≠ [] ∧ rest.all Char.isDigit then some (-(digitsVal rest : Int)) else none
  | '+' :: rest =>
      if rest ≠ [] ∧ rest.all Char.isDigit then some ((digitsVal rest : Int)) else none
  | cs =>
      if cs.all Char.isDigit then some ((digitsVal cs : Int)) else none

/-- Python `",".join(str(n) for n in l)` (views.py, used for card numbers and the
round-fingerprint input). -/
def joinComma : List Int → String
  | [] => ""
  | [n] => intStr n
  | n :: m :: rest => intStr n ++ "," ++ joinComma (m :: rest)

/-- views.py `verify_card`: parse of the `called_numbers` POST field.
`[int(x) for x in s.split(",") if x.strip()]`, with any `ValueError`
degrading the whole list to `[]`. -/
def parseCalled (s : String) : List Int :=
  let t := trimChars s.data
  if t = [] then []
  else
    let toks := (splitComma t).filter (fun w => trimChars w ≠ [])
    match toks.mapM (fun w => parseIntToken (String.mk w)) with
    | some l => l
    | none => []

/-- views.py `verify_card`: parse of a stored card's `numbers` field.
`[int(n) for n in card.numbers.split(",")]` (no blank filtering), with
`ValueError` degrading to `[]`. -/
def parseGridNums (s : String) : List Int :=
  match (splitComma s.data).mapM (fun w => parseIntToken (String.mk w)) with
  | some l => l
  | none => []

/-! ### SHA-1 (views.py uses `hashlib.sha1` for the round fingerprint)

A byte-level functional SHA-1 over `List Nat` (each entry one byte),
mirroring FIPS 180, so that `round_hash` values are actual digests. -/

/-- Rotate a 32-bit word left. -/
def rotl32 (x n : Nat) : Nat := ((x <<< n) ||| (x >>> (32 - n))) % 4294967296

/-- SHA-1 round constants. -/
def sha1K (i : Nat) : Nat :=
  if i < 20 then 1518500249
  else if i < 40 then 1859775393
  else if i < 60 then 2400959708
  else 3395469782

/-- SHA-1 round functions. -/
def sha1F (i b c d : Nat) : Nat :=
  if i < 20 then (b &&& c) ||| ((b ^^^ 4294967295) &&& d)
  else if i < 40 then b ^^^ c ^^^ d
  else if i < 60 then (b &&& c) ||| (b &&& d) ||| (c &&& d)
  else b ^^^ c ^^^ d

/-- Merkle–Damgård padding: `0x80`, zeros to 56 mod 64, then the bit
length as eight big-endian bytes. -/
def sha1Pad (msg : List Nat) : List Nat :=
  let len := msg.length
  let zeros := (64 + 55 - len % 64) % 64
  msg ++ [128] ++ List.replicate zeros 0 ++
    (List.range 8).map (fun i => ((8 * len) >>> (8 * (7 - i))) % 256)

/-- Big-endian 32-bit word from four bytes of `l` starting at `j`. -/
def bytesToWord (l : List Nat) (j : Nat) : Nat :=
  l.getD j 0 * 16777216 + l.getD (j + 1) 0 * 65536 + l.getD (j + 2) 0 * 256 + l.getD (j + 3) 0

/-- The 16 message words of one 64-byte block. -/
def sha1Words (block : List Nat) : List Nat :=
  (List.range 16).map (fun i => bytesToWord block (4 * i))

/-- Extend 16 words to the 80-word schedule. -/
def sha1Extend (ws : List Nat) : List Nat :=
  (List.range 64).foldl
    (fun acc _ =>
      let n := acc.length
      acc ++ [rotl32 ((acc.getD (n - 3) 0) ^^^ (acc.getD (n - 8) 0) ^^^
                      (acc.getD (n - 14) 0) ^^^ (acc.getD (n - 16) 0)) 1])
    ws

/-- One SHA-1 compression round over a 64-byte block. -/
def sha1Compress (h : Nat × Nat × Nat × Nat × Nat) (block : List Nat) :
    Nat × Nat × Nat × Nat × Nat :=
  let ws := sha1Extend (sha1Words block)
  let st := (List.range 80).foldl
    (fun st i =>
      let (a, b, c, d, e) := st
      let temp := (rotl32 a 5 + sha1F i b c d + e + sha1K i + ws.getD i 0) % 4294967296
      (temp, a, rotl32 b 30, c, d))
    h
  ((h.1 + st.1) % 4294967296, (h.2.1 + st.2.1) % 4294967296,
   (h.2.2.1 + st.2.2.1) % 4294967296, (h.2.2.2.1 + st.2.2.2.1) % 4294967296,
   (h.2.2.2.2 + st.2.2.2.2) % 4294967296)

/-- Fold the compression function over all padded blocks. -/
def sha1Blocks (padded : List Nat) : Nat × Nat × Nat × Nat × Nat :=
  (List.range (padded.length / 64)).foldl
    (fun h b => sha1Compress h ((padded.drop (64 * b)).take 64))
    (1732584193, 4023233417, 2562383102, 271733878, 3285377520)

/-- Lower-case hex digit. -/
def hexChar (n : Nat) : Char := if n < 10 then Char.ofNat (48 + n) else Char.ofNat (87 + n)

/-- Eight-hex-digit rendering of a 32-bit word. -/
def wordHex (w : Nat) : String :=
  String.mk ((List.range 8).map (fun i => hexChar ((w >>> (4 * (7 - i))) % 16)))

/-- Hex digest, as `hashlib.sha1(bytes).hexdigest()` renders it. -/
def sha1hex (msg : List Nat) : String :=
  let h := sha1Blocks (sha1Pad msg)
  wordHex h.1 ++ wordHex h.2.1 ++ wordHex h.2.2.1 ++ wordHex h.2.2.2.1 ++ wordHex h.2.2.2.2

/-- UTF-8 bytes of the ASCII strings the app hashes. -/
def strBytes (s : String) : List Nat := s.data.map Char.toNat

/-! ### Data model (models.py)

Only the fields the core logic reads are modelled (`name`, `price` and the
`Game` table are never consulted by the generation/verification views).
Each table is a list in `created_at` order: `auto_now_add` timestamps
follow insertion order, so "order by created_at" is list order. -/

/-- models.py `Package.PACKAGE_TYPE_CHOICES`. -/
inductive PackageType
  | fixed
  | unlimited
deriving DecidableEq, Repr

/-- models.py `Package` (quota template). -/
structure Package where
  gameCount : Option Int
  packageType : PackageType
deriving DecidableEq, Repr

/-- models.py `SerialKey`. -/
structure SerialKey where
  key : String
  package : Package
  activated : Bool
  validUntil : Int
  generatedCards : Int
deriving DecidableEq, Repr

/-- models.py `SerialKey.remaining_cards`:
fixed → `max(0, (game_count or 0) - (generated_cards or 0))`, unlimited → `None`. -/
def remaining_cards (sk : SerialKey) : Option Int :=
  match sk.package.packageType with
  | .fixed => some (max 0 (sk.package.gameCount.getD 0 - sk.generatedCards))
  | .unlimited => none

/-- models.py `SerialKey.is_valid_now` (with `now` passed explicitly in
place of `timezone.now()`): false once `now > valid_until`; otherwise
unlimited keys are valid, and fixed keys need `remaining_cards > 0`. -/
def is_valid_now (sk : SerialKey) (now : Int) : Bool :=
  if sk.validUntil < now then false
  else
    match sk.package.packageType with
    | .unlimited => true
    | .fixed => (remaining_cards sk).getD 0 > 0

/-- models.py `BingoCard` (`created_at` is the position in the store list). -/
structure Card where
  cardId : String
  numbers : String
  used : Bool
deriving DecidableEq, Repr

/-- The `card_id` column of a card store. -/
def cardIds (store : List Card) : List String := store.map Card.cardId

/-- The `numbers` column of a card store. -/
def cardNumbers (store : List Card) : List String := store.map Card.numbers

/-! ### Card generation (views.py `generate_card`) -/

/-- views.py:133 `f"{new_id_int:03d}"`: zero-padded to width 3
(sign included in the width for negatives, as in Python). -/
def formatId (k : Int) : String :=
  match k with
  | .ofNat m => if m < 10 then "00" ++ natStr m else if m < 100 then "0" ++ natStr m else natStr m
  | .negSucc m => "-" ++ (if m + 1 < 10 then "0" ++ natStr (m + 1) else natStr (m + 1))

/-- views.py:127-132: read the most-recently-created card
(`order_by("created_at").last()`, i.e. the last list element), parse its
id, and step it, wrapping 999 back to 1; an empty store starts at 1.
`none` models the uncaught `ValueError` of `int(...)` on an unparseable
stored id. -/
def nextIdNum (store : List Card) : Option Int :=
  match store.getLast? with
  | none => some 1
  | some c =>
      match parseIntToken c.cardId with
      | none => none
      | some k => some (if k < 999 then k + 1 else 1)

/-- views.py:126-134, one attempt: compute the next id and insert; the
insert raises (modelled as `none`) when the id or the numbers string
violates a uniqueness constraint. -/
def tryInsert (store : List Card) (numbersStr : String) : Option (List Card × Card) :=
  match nextIdNum store with
  | none => none
  | some k =>
      let cid := formatId k
      if (cardIds store).contains cid || (cardNumbers store).contains numbersStr then none
      else
        let c : Card := ⟨cid, numbersStr, false⟩
        some (store ++ [c], c)

/-- views.py:124-138, the `for _attempt in range(5)` loop within one
request: the same pre-drawn `numbersStr` is retried; a failed attempt
leaves the store unchanged, and exhausting the bound re-raises, aborting
the request. -/
def retryInsert (n : Nat) (store : List Card) (numbersStr : String) :
    Option (List Card × Card) :=
  match n with
  | 0 => none
  | m + 1 =>
      match tryInsert store numbersStr with
      | some r => some r
      | none => retryInsert m store numbersStr

/-- The same retry loop, but letting each attempt observe its own store
snapshot (concurrent requests may commit between attempts); the list
holds the store seen by each of the (up to 5) attempts. -/
def retryInsertEnv (envs : List (List Card)) (numbersStr : String) :
    Option (List Card × Card) :=
  match envs with
  | [] => none
  | store :: rest =>
      match tryInsert store numbersStr with
      | some r => some r
      | none => retryInsertEnv rest numbersStr

/-- views.py:117-142, the `for _ in range(allowed)` loop: one pre-drawn
permutation string per card, each inserted under the 5-attempt retry;
any exhausted retry aborts (and rolls back) the whole request. -/
def generateLoop (perms : List String) (store : List Card) :
    Option (List Card × List Card) :=
  match perms with
  | [] => some (store, [])
  | p :: ps =>
      match retryInsert 5 store p with
      | none => none
      | some (store2, c) =>
          match generateLoop ps store2 with
          | none => none
          | some (store3, cs) => some (store3, c :: cs)

/-- views.py:86-90: `max(1, int(count_str))`, defaulting to 1 when the
field does not parse. -/
def parseRequested (countStr : String) : Nat :=
  match parseIntToken countStr with
  | some n => (max 1 n).toNat
  | none => 1

/-- The persistent state touched by `generate_card`. -/
structure GenState where
  cards : List Card
  keys : List SerialKey
deriving DecidableEq, Repr

/-- Validation failures of `generate_card` (rendered as user-facing
messages), plus the re-raised allocation exhaustion that rolls the
transaction back. -/
inductive GenError
  | invalidKey
  | quotaExhausted
  | expired
  | allocationFailed
deriving DecidableEq, Repr

/-- The success context built at views.py:158-169; `info` carries the
`(allowed, requested)` pair of the partial-quota notice when
`allowed < requested`. -/
structure GenSuccess where
  cards : List Card
  generatedCount : Nat
  requestedCount : Nat
  info : Option (Nat × Nat)
  remainingAfter : Option Int
deriving DecidableEq, Repr

/-- Model of `sk.save()`: write the key row back by its unique `key`. -/
def updateKey (keys : List SerialKey) (sk : SerialKey) : List SerialKey :=
  keys.map (fun k => if k.key == sk.key then sk else k)

/-- The rendered response of `generate_card`: an error context or the
success context. -/
inductive GenOutcome
  | error (e : GenError)
  | ok (s : GenSuccess)
deriving DecidableEq, Repr

/-- views.py:76-170 `generate_card` (POST path).  `perms i` is the
permutation string drawn by `random.shuffle` for the i-th card of the
batch; `now` stands for `timezone.now()`.  Error branches return the
state unchanged: the failed validations render before anything is saved,
and an allocation failure re-raises so `@transaction.atomic` rolls the
whole request back. -/
def generateCard (st : GenState) (keyStr countStr : String) (perms : Nat → String)
    (now : Int) : GenOutcome × GenState :=
  let requested := parseRequested countStr
  match st.keys.find? (fun sk => sk.key == pyStrip keyStr) with
  | none => (.error .invalidKey, st)
  | some sk0 =>
      let sk := { sk0 with activated := true }
      match sk.package.packageType with
      | .fixed =>
          let remaining := (remaining_cards sk).getD 0
          if remaining ≤ 0 then (.error .quotaExhausted, st)
          else
            let allowed := min requested remaining.toNat
            match generateLoop ((List.range allowed).map perms) st.cards with
            | none => (.error .allocationFailed, st)
            | some (cards2, newCards) =>
                let sk2 := { sk with generatedCards := sk.generatedCards + (allowed : Int) }
                (.ok { cards := newCards, generatedCount := allowed,
                       requestedCount := requested,
                       info := if allowed < requested then some (allowed, requested) else none,
                       remainingAfter := remaining_cards sk2 },
                 { cards := cards2, keys := updateKey st.keys sk2 })
      | .unlimited =>
          if is_valid_now sk now then
            let allowed := requested
            match generateLoop ((List.range allowed).map perms) st.cards with
            | none => (.error .allocationFailed, st)
            | some (cards2, newCards) =>
                (.ok { cards := newCards, generatedCount := allowed,
                       requestedCount := requested, info := none,
                       remainingAfter := none },
                 { cards := cards2, keys := updateKey st.keys sk })
          else (.error .expired, st)

/-! ### Win detection (views.py `_compute_winning_lines`) -/

/-- The result dict of `_compute_winning_lines`. -/
structure Winning where
  rows : List Nat
  cols : List Nat
  diagonals : List String
  cells : List (Nat × Nat)
deriving DecidableEq, Repr

/-- Cell `grid[r][c]` of the row-major 5×5 reshape of the stored 25 numbers
(views.py:280 `grid = [nums[i:i+5] for i in range(0, 25, 5)]`). -/
def gridCell (nums : List Int) (r c : Nat) : Int := nums.getD (5 * r + c) 0

/-- Row check `all(grid[r][c] in called_set for c in range(5))`. -/
def rowMatched (nums called : List Int) (r : Nat) : Bool :=
  (List.range 5).all (fun c => called.contains (gridCell nums r c))

/-- Column check `all(grid[r][c] in called_set for r in range(5))`. -/
def colMatched (nums called : List Int) (c : Nat) : Bool :=
  (List.range 5).all (fun r => called.contains (gridCell nums r c))

/-- Main-diagonal check `all(grid[i][i] in called_set for i in range(5))`. -/
def mainDiagMatched (nums called : List Int) : Bool :=
  (List.range 5).all (fun i => called.contains (gridCell nums i i))

/-- Anti-diagonal check `all(grid[i][4 - i] in called_set for i in range(5))`. -/
def antiDiagMatched (nums called : List Int) : Bool :=
  (List.range 5).all (fun i => called.contains (gridCell nums i (4 - i)))

/-- views.py:172-202 `_compute_winning_lines`: matched rows, then columns,
then the two diagonals; `cells` accumulates the five coordinates of every
matched line in that same order, without deduplication. -/
def computeWinningLines (nums called : List Int) : Winning :=
  let rs := (List.range 5).filter (rowMatched nums called)
  let cs := (List.range 5).filter (colMatched nums called)
  { rows := rs
    cols := cs
    diagonals :=
      (if mainDiagMatched nums called then ["main"] else []) ++
      (if antiDiagMatched nums called then ["anti"] else [])
    cells :=
      rs.flatMap (fun r => (List.range 5).map (fun c => (r, c))) ++
      cs.flatMap (fun c => (List.range 5).map (fun r => (r, c))) ++
      (if mainDiagMatched nums called then (List.range 5).map (fun i => (i, i)) else []) ++
      (if antiDiagMatched nums called then (List.range 5).map (fun i => (i, 4 - i)) else []) }

/-- views.py:284 `win = bool(winning["rows"] or winning["cols"] or winning["diagonals"])`. -/
def winOf (w : Winning) : Bool := !w.rows.isEmpty || !w.cols.isEmpty || !w.diagonals.isEmpty

/-! ### Round fingerprint and verification ledger (views.py `verify_card`) -/

/-- A JSON value inside the client-posted `numbers_full` array: an integer
or anything failing `isinstance(n, int)`.  (Absent or unparseable
`numbers_full` is the empty list, as in views.py:231-236.) -/
inductive JVal
  | jint (n : Int)
  | jother
deriving DecidableEq, Repr

/-- views.py:239 `numbers_full and len(numbers_full) == 25 and all(isinstance(n, int) ...)`. -/
def isFullSeq (l : List JVal) : Bool :=
  !l.isEmpty && l.length == 25 &&
    l.all (fun v => match v with | .jint _ => true | .jother => false)

/-- The integers of a `numbers_full` list (all of them, when `isFullSeq`). -/
def jints (l : List JVal) : List Int :=
  l.filterMap (fun v => match v with | .jint n => some n | .jother => none)

/-- views.py:238-243: the string that gets fingerprinted — the joined full
sequence when a 25-integer list was supplied, else the called-numbers
prefix tagged `"prefix:"`. -/
def seqString (numbersFull : List JVal) (called : List Int) : String :=
  if isFullSeq numbersFull then joinComma (jints numbersFull)
  else "prefix:" ++ joinComma called

/-- views.py:244 `round_hash = hashlib.sha1(seq_str.encode("utf-8")).hexdigest()`. -/
def roundHash (numbersFull : List JVal) (called : List Int) : String :=
  sha1hex (strBytes (seqString numbersFull called))

/-- models.py `VerificationLog` (`created_at` is the position in the list). -/
structure LogEntry where
  cardId : String
  calledNumbers : List Int
  winningLines : Winning
  isWinner : Bool
  roundHash : String
  claimIndex : Nat
  assignedRank : Option Int
deriving DecidableEq, Repr

/-- views.py:289-291: first (by `created_at`) winning log entry of this
card in this round, if any. -/
def priorWin (logs : List LogEntry) (cid rh : String) : Option LogEntry :=
  logs.find? (fun e => e.cardId == cid && e.roundHash == rh && e.isWinner)

/-- views.py:296-298: count of winning log entries for this round. -/
def winnersCount (logs : List LogEntry) (rh : String) : Nat :=
  (logs.filter (fun e => e.roundHash == rh && e.isWinner)).length

/-- The persistent state touched by `verify_card`. -/
structure VerifyState where
  cards : List Card
  logs : List LogEntry
deriving DecidableEq, Repr

/-- Outcome of `verify_card`: the three early rejections (registration,
404, malformed stored grid) or the JSON payload fields of a completed
verification. -/
inductive VerifyResult
  | notRegistered
  | cardNotFound
  | malformedGrid (cardId : String)
  | ok (win : Bool) (winning : Winning) (rank : Option Int) (alreadyUsed : Bool)
deriving DecidableEq, Repr

/-- views.py:204-338 `verify_card` (POST path).  `allowedCards` is the
parsed `allowed_cards` JSON list (empty when absent or unparseable).
Early rejections return the state unchanged; a completed verification
appends exactly one log entry and flips `used` on the first win. -/
def verifyCard (st : VerifyState) (cardIdStr calledStr : String)
    (numbersFull : List JVal) (allowedCards : List String) :
    VerifyResult × VerifyState :=
  let cardId := pyStrip cardIdStr
  let called := parseCalled calledStr
  let rh := roundHash numbersFull called
  let claimIndex := called.length
  if !allowedCards.isEmpty && !allowedCards.contains cardId then
    (.notRegistered, st)
  else
    match st.cards.find? (fun c => c.cardId == cardId) with
    | none => (.cardNotFound, st)
    | some card =>
        let nums := parseGridNums card.numbers
        if nums.length ≠ 25 then (.malformedGrid card.cardId, st)
        else
          let winning := computeWinningLines nums called
          let win := winOf winning
          let assignedRank : Option Int :=
            if win then
              match priorWin st.logs card.cardId rh with
              | some e => e.assignedRank
              | none => some ((winnersCount st.logs rh : Int) + 1)
            else none
          let entry : LogEntry :=
            { cardId := card.cardId, calledNumbers := called, winningLines := winning,
              isWinner := win, roundHash := rh, claimIndex := claimIndex,
              assignedRank := assignedRank }
          let cards2 :=
            if win && !card.used then
              st.cards.map (fun c => if c.cardId == card.cardId then { c with used := true } else c)
            else st.cards
          (.ok win winning assignedRank (card.used && win),
           { cards := cards2, logs := st.logs ++ [entry] })

/-! ### Concrete instances used by witnesses and counterexamples -/

/-- The row-major grid 1..25. -/
def gridW : List Int := (List.range 25).map (fun i => (i : Int) + 1)

/-- A called set covering both diagonals of `gridW` and nothing else. -/
def calledW : List Int := [1, 7, 13, 19, 25, 5, 9, 17, 21]

/-- A fixed package worth three cards. -/
def pkgFixed3 : Package := ⟨some 3, .fixed⟩

/-- A never-activated fixed key that expired at time 0. -/
def skExpiredFixed : SerialKey := ⟨"K", pkgFixed3, false, 0, 0⟩

/-- Generation state holding only `skExpiredFixed`. -/
def stExpiredFixed : GenState := ⟨[], [skExpiredFixed]⟩

/-- Generation state with a fresh fixed key valid until time 50. -/
def stQuota : GenState := ⟨[], [⟨"K", pkgFixed3, false, 50, 0⟩]⟩

/-- A supply of pairwise-distinct permutation strings. -/
def natPerm : Nat → String := fun i => natStr i

/-- An unlimited package. -/
def pkgUnlimited : Package := ⟨none, .unlimited⟩

/-- Generation state with an unlimited key that expired at time 0. -/
def stUnlExpired : GenState := ⟨[], [⟨"U", pkgUnlimited, true, 0, 0⟩]⟩

/-- The canonical numbers string of `gridW`. -/
def numbersW : String := joinComma gridW

/-- Verification state with one unused card and an empty ledger. -/
def stVerify : VerifyState := ⟨[⟨"001", numbersW, false⟩], []⟩

/-- The grid `gridW` as a client-posted full 25-integer sequence. -/
def fullW : List JVal := gridW.map JVal.jint

/-- Default card used for proof-free list indexing in statements. -/
def cdef : Card := ⟨"", "", false⟩

/-! ### Helper lemmas -/

theorem rowMatched_iff (nums called : List Int) (r : Nat) :
    rowMatched nums called r = true ↔ ∀ c < 5, gridCell nums r c ∈ called := by
  simp [rowMatched, List.all_eq_true, List.mem_range]

theorem colMatched_iff (nums called : List Int) (c : Nat) :
    colMatched nums called c = true ↔ ∀ r < 5, gridCell nums r c ∈ called := by
  simp [colMatched, List.all_eq_true, List.mem_range]

theorem mainDiagMatched_iff (nums called : List Int) :
    mainDiagMatched nums called = true ↔ ∀ i < 5, gridCell nums i i ∈ called := by
  simp [mainDiagMatched, List.all_eq_true, List.mem_range]

theorem antiDiagMatched_iff (nums called : List Int) :
    antiDiagMatched nums called = true ↔ ∀ i < 5, gridCell nums i (4 - i) ∈ called := by
  simp [antiDiagMatched, List.all_eq_true, List.mem_range]

theorem count_rowCells (a r c : Nat) (hc : c < 5) :
    ((List.range 5).map (fun w => (a, w))).count (r, c) = if a = r then 1 else 0 := by
  show List.count (r, c) [(a, 0), (a, 1), (a, 2), (a, 3), (a, 4)] = _
  simp only [List.count_cons, List.count_nil, beq_iff_eq, Prod.mk.injEq]
  by_cases h : a = r
  · subst h; interval_cases c <;> simp
  · simp [h]

theorem count_colCells (a r c : Nat) (hr : r < 5) :
    ((List.range 5).map (fun w => (w, a))).count (r, c) = if a = c then 1 else 0 := by
  show List.count (r, c) [(0, a), (1, a), (2, a), (3, a), (4, a)] = _
  simp only [List.count_cons, List.count_nil, beq_iff_eq, Prod.mk.injEq]
  by_cases h : a = c
  · subst h; interval_cases r <;> simp
  · simp [h]

theorem count_flatMap_rowCells (m : List Nat) (r c : Nat) (hc : c < 5) :
    (m.flatMap (fun a => (List.range 5).map (fun w => (a, w)))).count (r, c) = m.count r := by
  induction m with
  | nil => rfl
  | cons a m ih =>
      rw [List.flatMap_cons, List.count_append, ih, List.count_cons, count_rowCells a r c hc]
      simp only [beq_iff_eq]
      omega

theorem count_flatMap_colCells (m : List Nat) (r c : Nat) (hr : r < 5) :
    (m.flatMap (fun a => (List.range 5).map (fun w => (w, a)))).count (r, c) = m.count c := by
  induction m with
  | nil => rfl
  | cons a m ih =>
      rw [List.flatMap_cons, List.count_append, ih, List.count_cons, count_colCells a r c hr]
      simp only [beq_iff_eq]
      omega

theorem count_mainDiagCells (r c : Nat) (hr : r < 5) :
    ((List.range 5).map (fun i => (i, i))).count (r, c) = if r = c then 1 else 0 := by
  show List.count (r, c) [(0, 0), (1, 1), (2, 2), (3, 3), (4, 4)] = _
  simp only [List.count_cons, List.count_nil, beq_iff_eq, Prod.mk.injEq]
  interval_cases r <;> simp [eq_comm]

theorem count_antiDiagCells (r c : Nat) (hr : r < 5) :
    ((List.range 5).map (fun i => (i, 4 - i))).count (r, c) = if c = 4 - r then 1 else 0 := by
  show List.count (r, c) [(0, 4), (1, 3), (2, 2), (3, 1), (4, 0)] = _
  simp only [List.count_cons, List.count_nil, beq_iff_eq, Prod.mk.injEq]
  interval_cases r <;> simp [eq_comm]

theorem count_filter_range5 (p : Nat → Bool) (r : Nat) (hr : r < 5) :
    ((List.range 5).filter p).count r = if p r then 1 else 0 := by
  by_cases hp : p r = true
  · rw [List.count_filter hp, if_pos hp]
    interval_cases r <;> decide
  · rw [if_neg hp]
    refine List.count_eq_zero.2 (fun hmem => ?_)
    exact hp (List.mem_filter.1 hmem).2

/-! ### Claims -/

/-- C2: a row, column, or diagonal is matched iff all five of its cells'
values belong to the called set (rows, columns, main and anti diagonal
evaluated independently); win holds iff at least one line matched; and
each cell coordinate occurs in `cells` once per matched line containing
it (so a cell lying on two matched lines appears twice). -/
theorem C2_evaluate_matched_lines (nums called : List Int) :
    (∀ r, r ∈ (computeWinningLines nums called).rows ↔
        r < 5 ∧ ∀ c < 5, gridCell nums r c ∈ called) ∧
    (∀ c, c ∈ (computeWinningLines nums called).cols ↔
        c < 5 ∧ ∀ r < 5, gridCell nums r c ∈ called) ∧
    ("main" ∈ (computeWinningLines nums called).diagonals ↔
        ∀ i < 5, gridCell nums i i ∈ called) ∧
    ("anti" ∈ (computeWinningLines nums called).diagonals ↔
        ∀ i < 5, gridCell nums i (4 - i) ∈ called) ∧
    (winOf (computeWinningLines nums called) = true ↔
        (∃ r < 5, ∀ c < 5, gridCell nums r c ∈ called) ∨
        (∃ c < 5, ∀ r < 5, gridCell nums r c ∈ called) ∨
        (∀ i < 5, gridCell nums i i ∈ called) ∨
        (∀ i < 5, gridCell nums i (4 - i) ∈ called)) ∧
    (∀ r c, r < 5 → c < 5 →
        (computeWinningLines nums called).cells.count (r, c) =
          (if rowMatched nums called r then 1 else 0) +
          (if colMatched nums called c then 1 else 0) +
          (if mainDiagMatched nums called ∧ r = c then 1 else 0) +
          (if antiDiagMatched nums called ∧ c = 4 - r then 1 else 0)) := by
  refine ⟨?_, ?_, ?_, ?_, ?_, ?_⟩
  · intro r
    simp [computeWinningLines, List.mem_filter, List.mem_range, rowMatched_iff]
  · intro c
    simp [computeWinningLines, List.mem_filter, List.mem_range, colMatched_iff]
  · simp only [computeWinningLines, List.mem_append, ← mainDiagMatched_iff]
    constructor
    · rintro (h | h) <;> split at h <;> simp_all
    · intro h; left; simp [h]
  · simp only [computeWinningLines, List.mem_append, ← antiDiagMatched_iff]
    constructor
    · rintro (h | h) <;> split at h <;> simp_all
    · intro h; right; simp [h]
  · have hrows : (computeWinningLines nums called).rows =
        (List.range 5).filter (rowMatched nums called) := rfl
    have hcols : (computeWinningLines nums called).cols =
        (List.range 5).filter (colMatched nums called) := rfl
    have hdiag : (computeWinningLines nums called).diagonals =
        (if mainDiagMatched nums called then ["main"] else []) ++
        (if antiDiagMatched nums called then ["anti"] else []) := rfl
    have hne : ∀ (α : Type) (l : List α), (!l.isEmpty) = true ↔ l ≠ [] := by
      intro α l; cases l <;> simp
    simp only [winOf, Bool.or_eq_true, hne, hrows, hcols, hdiag]
    constructor
    · rintro ((hr | hc) | hd)
      · rcases List.exists_mem_of_ne_nil _ hr with ⟨r, hrm⟩
        rcases List.mem_filter.1 hrm with ⟨hr5, hp⟩
        exact Or.inl ⟨r, List.mem_range.1 hr5, (rowMatched_iff nums called r).1 hp⟩
      · rcases List.exists_mem_of_ne_nil _ hc with ⟨c, hcm⟩
        rcases List.mem_filter.1 hcm with ⟨hc5, hp⟩
        exact Or.inr (Or.inl ⟨c, List.mem_range.1 hc5, (colMatched_iff nums called c).1 hp⟩)
      · by_cases hm : mainDiagMatched nums called = true
        · exact Or.inr (Or.inr (Or.inl ((mainDiagMatched_iff nums called).1 hm)))
        · by_cases hb : antiDiagMatched nums called = true
          · exact Or.inr (Or.inr (Or.inr ((antiDiagMatched_iff nums called).1 hb)))
          · exact absurd (by simp [hm, hb]) hd
    · rintro (⟨r, hr5, hr⟩ | ⟨c, hc5, hcm⟩ | h | h)
      · exact Or.inl (Or.inl (List.ne_nil_of_mem (List.mem_filter.2
          ⟨List.mem_range.2 hr5, (rowMatched_iff nums called r).2 hr⟩)))
      · exact Or.inl (Or.inr (List.ne_nil_of_mem (List.mem_filter.2
          ⟨List.mem_range.2 hc5, (colMatched_iff nums called c).2 hcm⟩)))
      · refine Or.inr (List.ne_nil_of_mem (a := "main") ?_)
        rw [if_pos ((mainDiagMatched_iff nums called).2 h)]
        exact List.mem_append.2 (Or.inl (by simp))
      · refine Or.inr (List.ne_nil_of_mem (a := "anti") ?_)
        rw [if_pos ((antiDiagMatched_iff nums called).2 h)]
        exact List.mem_append.2 (Or.inr (by simp))
  · intro r c hr hc
    simp only [computeWinningLines, List.count_append]
    rw [count_flatMap_rowCells _ r c hc, count_flatMap_colCells _ r c hr,
        count_filter_range5 _ r hr, count_filter_range5 _ c hc]
    have hm : (if mainDiagMatched nums called then
        (List.range 5).map (fun i => (i, i)) else []).count (r, c) =
        if mainDiagMatched nums called ∧ r = c then 1 else 0 := by
      split
      · rw [count_mainDiagCells r c hr]; simp_all
      · simp_all
    have ha : (if antiDiagMatched nums called then
        (List.range 5).map (fun i => (i, 4 - i)) else []).count (r, c) =
        if antiDiagMatched nums called ∧ c = 4 - r then 1 else 0 := by
      split
      · rw [count_antiDiagCells r c hr]; simp_all
      · simp_all
    rw [hm, ha]

/-- Witness for C2: on the 1..25 grid with both diagonals fully called,
both diagonals are reported and the centre cell (2,2) appears twice. -/
theorem C2_evaluate_matched_lines_witness :
    "main" ∈ (computeWinningLines gridW calledW).diagonals ∧
    "anti" ∈ (computeWinningLines gridW calledW).diagonals ∧
    (computeWinningLines gridW calledW).cells.count (2, 2) = 2 := by
  have h := C2_evaluate_matched_lines gridW calledW
  refine ⟨h.2.2.1.2 (by decide), h.2.2.2.1.2 (by decide), ?_⟩
  rw [h.2.2.2.2.2 2 2 (by decide) (by decide)]
  decide

/-- C5: the allocator reads the most-recently-created card (the last of
the store in creation order, whatever earlier cards hold numerically):
an empty store allocates id 1, rendered "001"; otherwise the next id is
the last card's id plus one, wrapping 999 to 1; and every id in range is
rendered as a zero-padded 3-digit string that parses back to itself. -/
theorem C5_allocator_next_id :
    (nextIdNum [] = some 1 ∧
      ∀ p : String, tryInsert [] p = some ([⟨formatId 1, p, false⟩], ⟨formatId 1, p, false⟩)) ∧
    (∀ (store : List Card) (c : Card) (k : Int),
        parseIntToken c.cardId = some k →
        nextIdNum (store ++ [c]) = some (if k < 999 then k + 1 else 1)) ∧
    (∀ k : Nat, k < 1000 →
        (formatId (k : Int)).length = 3 ∧ parseIntToken (formatId (k : Int)) = some (k : Int)) := by
  refine ⟨⟨rfl, fun p => rfl⟩, ?_, ?_⟩
  · intro store c k hk
    unfold nextIdNum
    rw [List.getLast?_concat]
    show (match parseIntToken c.cardId with
          | none => none
          | some k => some (if k < 999 then k + 1 else 1)) = _
    rw [hk]
  · decide

/-- Witness for C5: the id after creation order [500, 100] is 101 (the
most recent card governs, not the numeric maximum); 999 wraps to 1; 101
renders as "101" of length 3. -/
theorem C5_allocator_next_id_witness :
    nextIdNum [⟨"500", "a", false⟩, ⟨"100", "b", false⟩] = some 101 ∧
    nextIdNum [⟨"998", "x", false⟩, ⟨"999", "y", false⟩] = some 1 ∧
    (formatId 101).length = 3 ∧ parseIntToken (formatId 101) = some 101 := by
  have h := C5_allocator_next_id
  refine ⟨?_, ?_, (h.2.2 101 (by decide)).1, (h.2.2 101 (by decide)).2⟩
  · have hx := h.2.1 [⟨"500", "a", false⟩] ⟨"100", "b", false⟩ 100 (by decide)
    simpa using hx
  · have hx := h.2.1 [⟨"998", "x", false⟩] ⟨"999", "y", false⟩ 999 (by decide)
    simpa using hx

theorem remaining_cards_set_activated (sk : SerialKey) (b : Bool) :
    remaining_cards { sk with activated := b } = remaining_cards sk := rfl

theorem is_valid_now_set_activated (sk : SerialKey) (b : Bool) (now : Int) :
    is_valid_now { sk with activated := b } now = is_valid_now sk now := rfl

theorem tryInsert_spec (store : List Card) (s : String) (store2 : List Card) (c : Card)
    (h : tryInsert store s = some (store2, c)) :
    store2 = store ++ [c] ∧ c.numbers = s ∧ c.used = false := by
  unfold tryInsert at h
  split at h
  · exact absurd h (by simp)
  · dsimp only [] at h
    split at h
    · exact absurd h (by simp)
    · rw [Option.some.injEq, Prod.mk.injEq] at h
      obtain ⟨h1, h2⟩ := h
      subst h2
      exact ⟨h1.symm, rfl, rfl⟩

theorem retryInsert_spec (n : Nat) (store : List Card) (s : String) (store2 : List Card)
    (c : Card) (h : retryInsert n store s = some (store2, c)) :
    store2 = store ++ [c] ∧ c.numbers = s ∧ c.used = false := by
  induction n with
  | zero => exact absurd h (by simp [retryInsert])
  | succ m ih =>
      unfold retryInsert at h
      cases ht : tryInsert store s with
      | none => rw [ht] at h; exact ih h
      | some r =>
          rw [ht, Option.some.injEq] at h
          exact tryInsert_spec store s store2 c (by rw [ht, h])

theorem generateLoop_spec (ps : List String) (store store2 : List Card) (cs : List Card)
    (h : generateLoop ps store = some (store2, cs)) :
    store2 = store ++ cs ∧ cs.length = ps.length := by
  induction ps generalizing store store2 cs with
  | nil =>
      unfold generateLoop at h
      rw [Option.some.injEq, Prod.mk.injEq] at h
      simp [← h.1, ← h.2]
  | cons p ps ih =>
      unfold generateLoop at h
      split at h
      · exact absurd h (by simp)
      · rename_i store1 c1 heq1
        split at h
        · exact absurd h (by simp)
        · rename_i store3 cs2 heq2
          rw [Option.some.injEq, Prod.mk.injEq] at h
          obtain ⟨hstep, _, _⟩ := retryInsert_spec 5 store p store1 c1 heq1
          obtain ⟨hrest, hlen⟩ := ih store1 store3 cs2 heq2
          constructor
          · rw [← h.1, hrest, hstep, ← h.2]
            simp
          · rw [← h.2]
            simp [hlen]

/-- C4: reserving against a fixed key fails with QuotaExhausted when no
quota remains (with no state change); otherwise exactly
allowed = min(requested, remaining) cards are appended, generated_cards
grows by allowed, and a non-error informational notice carrying
(allowed, requested) is surfaced exactly when allowed < requested. -/
theorem C4_fixed_quota_reservation (st : GenState) (keyStr countStr : String)
    (perms : Nat → String) (now : Int) (sk : SerialKey)
    (requested : Nat) (remaining : Int) (allowed : Nat) (sk2 : SerialKey)
    (hfind : st.keys.find? (fun k => k.key == pyStrip keyStr) = some sk)
    (htype : sk.package.packageType = .fixed)
    (hreq : requested = parseRequested countStr)
    (hrem : remaining = (remaining_cards sk).getD 0)
    (hallow : allowed = min requested remaining.toNat)
    (hsk2 : sk2 = { sk with activated := true
                            generatedCards := sk.generatedCards + (allowed : Int) }) :
    (remaining ≤ 0 →
      generateCard st keyStr countStr perms now = (.error .quotaExhausted, st)) ∧
    (0 < remaining →
      ∀ cards2 newCards,
        generateLoop ((List.range allowed).map perms) st.cards = some (cards2, newCards) →
          generateCard st keyStr countStr perms now =
            (.ok { cards := newCards, generatedCount := allowed, requestedCount := requested,
                   info := if allowed < requested then some (allowed, requested) else none,
                   remainingAfter := remaining_cards sk2 },
             { cards := st.cards ++ newCards, keys := updateKey st.keys sk2 }) ∧
          newCards.length = allowed) := by
  subst hreq hrem hallow hsk2
  constructor
  · intro hle
    simp only [generateCard, hfind, htype, remaining_cards_set_activated]
    rw [if_pos hle]
  · intro hpos cards2 newCards hloop
    obtain ⟨hcards, hlen⟩ := generateLoop_spec _ _ _ _ hloop
    subst hcards
    refine ⟨?_, hlen.trans (by simp)⟩
    simp only [generateCard, hfind, htype, remaining_cards_set_activated]
    rw [if_neg (by omega), hloop]

/-- Witness for C4: requesting 10 against remaining quota 3 yields the
three cards 001/002/003, an informational (3, 10) notice, remaining 0
afterward, and generated_cards = 3 on the key. -/
theorem C4_fixed_quota_reservation_witness :
    generateCard stQuota "K" "10" natPerm 0 =
      (.ok { cards := [⟨"001", "0", false⟩, ⟨"002", "1", false⟩, ⟨"003", "2", false⟩],
             generatedCount := 3, requestedCount := 10, info := some (3, 10),
             remainingAfter := some 0 },
       ⟨[⟨"001", "0", false⟩, ⟨"002", "1", false⟩, ⟨"003", "2", false⟩],
        [⟨"K", pkgFixed3, true, 50, 3⟩]⟩) := by
  have h := (C4_fixed_quota_reservation stQuota "K" "10" natPerm 0
      ⟨"K", pkgFixed3, false, 50, 0⟩ 10 3 3 ⟨"K", pkgFixed3, true, 50, 3⟩
      (by decide) (by decide) (by decide) (by decide) (by decide) (by decide)).2
      (by decide) [⟨"001", "0", false⟩, ⟨"002", "1", false⟩, ⟨"003", "2", false⟩]
      [⟨"001", "0", false⟩, ⟨"002", "1", false⟩, ⟨"003", "2", false⟩] (by decide)
  exact h.1.trans (by decide)

/-- C3 counterexample: a fixed-package key whose valid_until (0) is in
the past at request time (now = 100) is not rejected with an expiry
error — the request succeeds, produces a card and consumes quota. -/
theorem C3_counterexample :
    skExpiredFixed.validUntil < 100 ∧
    skExpiredFixed.package.packageType = .fixed ∧
    is_valid_now skExpiredFixed 100 = false ∧
    generateCard stExpiredFixed "K" "1" natPerm 100 =
      (.ok { cards := [⟨"001", "0", false⟩], generatedCount := 1, requestedCount := 1,
             info := none, remainingAfter := some 2 },
       ⟨[⟨"001", "0", false⟩], [⟨"K", pkgFixed3, true, 0, 1⟩]⟩) := by decide

/-- C3 (amended): absolute expiry is enforced at reservation time only
for unlimited-package keys — such a request made when now > valid_until
fails with the expiry error and leaves the state unchanged (no cards, no
activation persisted); fixed-package keys are gated only by remaining
quota at reservation time. -/
theorem C3_expiry_enforced_for_unlimited (st : GenState) (keyStr countStr : String)
    (perms : Nat → String) (now : Int) (sk : SerialKey)
    (hfind : st.keys.find? (fun k => k.key == pyStrip keyStr) = some sk)
    (htype : sk.package.packageType = .unlimited)
    (hexp : sk.validUntil < now) :
    generateCard st keyStr countStr perms now = (.error .expired, st) := by
  have hv : is_valid_now sk now = false := by
    unfold is_valid_now
    rw [if_pos hexp]
  simp only [generateCard, hfind, htype, is_valid_now_set_activated, hv]
  simp

/-- Witness for C3 (amended): an expired unlimited key is refused with
the expiry error and nothing changes. -/
theorem C3_expiry_enforced_for_unlimited_witness :
    generateCard stUnlExpired "U" "5" natPerm 100 = (.error .expired, stUnlExpired) :=
  C3_expiry_enforced_for_unlimited stUnlExpired "U" "5" natPerm 100
    ⟨"U", pkgUnlimited, true, 0, 0⟩ (by decide) (by decide) (by decide)

/-- C7: the validation failures are recovered with no state change —
unknown key (InvalidKey), exhausted fixed key (QuotaExhausted), invalid
unlimited key (Expired) each return their error with the generation
state untouched; and when a non-empty registered-cards list is supplied,
a claim for a card outside it fails with CardNotRegistered with the
verification state untouched (no evaluation, no log entry). -/
theorem C7_validation_failures_no_state_change :
    (∀ (st : GenState) (keyStr countStr : String) (perms : Nat → String) (now : Int),
        st.keys.find? (fun k => k.key == pyStrip keyStr) = none →
        generateCard st keyStr countStr perms now = (.error .invalidKey, st)) ∧
    (∀ (st : GenState) (keyStr countStr : String) (perms : Nat → String) (now : Int)
        (sk : SerialKey),
        st.keys.find? (fun k => k.key == pyStrip keyStr) = some sk →
        sk.package.packageType = .fixed → (remaining_cards sk).getD 0 ≤ 0 →
        generateCard st keyStr countStr perms now = (.error .quotaExhausted, st)) ∧
    (∀ (st : GenState) (keyStr countStr : String) (perms : Nat → String) (now : Int)
        (sk : SerialKey),
        st.keys.find? (fun k => k.key == pyStrip keyStr) = some sk →
        sk.package.packageType = .unlimited → is_valid_now sk now = false →
        generateCard st keyStr countStr perms now = (.error .expired, st)) ∧
    (∀ (st : VerifyState) (cardIdStr calledStr : String) (numbersFull : List JVal)
        (allowedCards : List String),
        allowedCards ≠ [] → pyStrip cardIdStr ∉ allowedCards →
        verifyCard st cardIdStr calledStr numbersFull allowedCards = (.notRegistered, st)) := by
  refine ⟨?_, ?_, ?_, ?_⟩
  · intro st keyStr countStr perms now hfind
    simp [generateCard, hfind]
  · intro st keyStr countStr perms now sk hfind htype hle
    simp only [generateCard, hfind, htype, remaining_cards_set_activated]
    rw [if_pos hle]
  · intro st keyStr countStr perms now sk hfind htype hv
    simp only [generateCard, hfind, htype, is_valid_now_set_activated, hv]
    simp
  · intro st cardIdStr calledStr numbersFull allowedCards hne hnmem
    have hcond : (!allowedCards.isEmpty && !allowedCards.contains (pyStrip cardIdStr)) = true := by
      simp [List.isEmpty_iff, hne, hnmem]
    simp only [verifyCard, hcond]
    simp

/-- Witness for C7: concrete instances of all four rejections leave the
concrete states untouched. -/
theorem C7_validation_failures_no_state_change_witness :
    generateCard stQuota "NOKEY" "1" natPerm 0 = (.error .invalidKey, stQuota) ∧
    generateCard ⟨[], [⟨"K", pkgFixed3, true, 50, 3⟩]⟩ "K" "1" natPerm 0 =
      (.error .quotaExhausted, ⟨[], [⟨"K", pkgFixed3, true, 50, 3⟩]⟩) ∧
    generateCard stUnlExpired "U" "1" natPerm 100 = (.error .expired, stUnlExpired) ∧
    verifyCard stVerify "002" "1,2,3" [] ["001", "007"] = (.notRegistered, stVerify) := by
  have h := C7_validation_failures_no_state_change
  exact ⟨h.1 stQuota "NOKEY" "1" natPerm 0 (by decide),
         h.2.1 ⟨[], [⟨"K", pkgFixed3, true, 50, 3⟩]⟩ "K" "1" natPerm 0
           ⟨"K", pkgFixed3, true, 50, 3⟩ (by decide) (by decide) (by decide),
         h.2.2.1 stUnlExpired "U" "1" natPerm 100 ⟨"U", pkgUnlimited, true, 0, 0⟩
           (by decide) (by decide) (by decide),
         h.2.2.2 stVerify "002" "1,2,3" [] ["001", "007"] (by decide) (by decide)⟩

/-- C1: every completed claim — winning or not — appends exactly one new
log entry, leaving all existing entries intact; and a winning claim's
rank is the prior winning entry's rank for the same (card, round_hash)
when one exists (idempotent replay), else the count of winning entries
for the round_hash plus 1. -/
theorem C1_rank_assignment (st : VerifyState) (cardIdStr calledStr : String)
    (numbersFull : List JVal) (allowedCards : List String)
    (win : Bool) (winning : Winning) (rank : Option Int) (au : Bool) (st2 : VerifyState)
    (h : verifyCard st cardIdStr calledStr numbersFull allowedCards =
      (.ok win winning rank au, st2)) :
    (∃ e : LogEntry, st2.logs = st.logs ++ [e] ∧ e.isWinner = win ∧ e.assignedRank = rank ∧
        e.roundHash = roundHash numbersFull (parseCalled calledStr)) ∧
    (∀ card, st.cards.find? (fun c => c.cardId == pyStrip cardIdStr) = some card →
      win = true →
        (∀ e, priorWin st.logs card.cardId (roundHash numbersFull (parseCalled calledStr)) =
            some e → rank = e.assignedRank) ∧
        (priorWin st.logs card.cardId (roundHash numbersFull (parseCalled calledStr)) = none →
          rank = some ((winnersCount st.logs (roundHash numbersFull (parseCalled calledStr)) :
            Int) + 1))) := by
  simp only [verifyCard] at h
  split at h
  · exact absurd h (by simp)
  · split at h
    · exact absurd h (by simp)
    · rename_i card hfind
      split at h
      · exact absurd h (by simp)
      · rw [Prod.mk.injEq, VerifyResult.ok.injEq] at h
        obtain ⟨⟨hwin, hwinning, hrank, hau⟩, hst⟩ := h
        constructor
        · exact ⟨_, by rw [← hst], hwin, hrank, rfl⟩
        · intro card2 hfind2 hwintrue
          rw [hfind, Option.some.injEq] at hfind2
          subst hfind2
          subst hwintrue
          constructor
          · intro e he
            rw [← hrank, hwin, if_pos rfl, he]
          · intro hnone
            rw [← hrank, hwin, if_pos rfl, hnone]

/-- Witness for C1: a first winning claim on an empty ledger appends one
entry and gets rank 1. -/
theorem C1_rank_assignment_witness :
    ∃ e : LogEntry,
      (verifyCard stVerify "001" "1,2,3,4,5" [] []).2.logs = stVerify.logs ++ [e] ∧
      e.isWinner = true ∧ e.assignedRank = some 1 := by
  have h := C1_rank_assignment stVerify "001" "1,2,3,4,5" [] [] _ _ _ _ _ rfl
  obtain ⟨⟨e, hlogs, hwin, hrank, _⟩, _⟩ := h
  exact ⟨e, hlogs, hwin, hrank⟩

theorem natStr_length_pos (n : Nat) : 0 < (natStr n).length := by
  show 0 < (natDigitsRev (n + 1) n).reverse.length
  rw [List.length_reverse]
  show 0 < (if n < 10 then [digitChar n]
            else digitChar (n % 10) :: natDigitsRev n (n / 10)).length
  split <;> simp

theorem intStr_length_pos (i : Int) : 0 < (intStr i).length := by
  unfold intStr
  split
  · rw [String.length_append]
    have := natStr_length_pos (-i).toNat
    omega
  · exact natStr_length_pos _

theorem joinComma_length_pos (l : List Int) (h : l ≠ []) : 0 < (joinComma l).length := by
  match l with
  | [n] => exact intStr_length_pos n
  | n :: m :: rest =>
      show 0 < (intStr n ++ "," ++ joinComma (m :: rest)).length
      rw [String.length_append, String.length_append]
      have := intStr_length_pos n
      omega

theorem joinComma_cons_length (n : Int) (l : List Int) (h : l ≠ []) :
    (joinComma (n :: l)).length = (intStr n).length + 1 + (joinComma l).length := by
  match l with
  | m :: rest =>
      show (intStr n ++ "," ++ joinComma (m :: rest)).length = _
      rw [String.length_append, String.length_append]
      rfl

theorem joinComma_strict_prefix_length_lt (l1 l2 : List Int)
    (hpre : List.IsPrefix l1 l2) (hlt : l1.length < l2.length) :
    (joinComma l1).length < (joinComma l2).length := by
  induction l1 generalizing l2 with
  | nil =>
      have hne : l2 ≠ [] := by
        intro hnil; rw [hnil] at hlt; simp at hlt
      have := joinComma_length_pos l2 hne
      simpa [joinComma] using this
  | cons a l1t ih =>
      obtain ⟨t, ht⟩ := hpre
      subst ht
      cases l1t with
      | nil =>
          have htne : t ≠ [] := by
            intro hnil; rw [hnil] at hlt; simp at hlt
          have h2 := joinComma_cons_length a t htne
          have h3 := joinComma_length_pos t htne
          rw [show ([a] ++ t) = a :: t from List.singleton_append, h2,
              show joinComma [a] = intStr a from rfl]
          omega
      | cons b l1tt =>
          have h1 := joinComma_cons_length a (b :: l1tt) (by simp)
          have h2 : (a :: b :: l1tt) ++ t = a :: ((b :: l1tt) ++ t) := rfl
          have h3 := joinComma_cons_length a ((b :: l1tt) ++ t) (by simp)
          have h4 := ih ((b :: l1tt) ++ t) ⟨t, rfl⟩ (by simp at hlt ⊢; omega)
          rw [h1, h2, h3]
          omega

/-- C6: with a full 25-integer shuffle supplied, the round fingerprint is
the SHA-1 of that sequence alone, so claims at any reveal depth of the
same shuffle share round_hash; without it, the fingerprint hashes the
called-numbers prefix itself, so different reveal depths of the same
shuffle hash different strings (shown concretely to yield different
digests), and are not grouped as one round. -/
theorem C6_round_fingerprint :
    (∀ (full : List JVal) (called1 called2 : List Int), isFullSeq full = true →
        roundHash full called1 = roundHash full called2 ∧
        roundHash full called1 = sha1hex (strBytes (joinComma (jints full)))) ∧
    (∀ (full : List JVal) (called : List Int), isFullSeq full = false →
        roundHash full called = sha1hex (strBytes ("prefix:" ++ joinComma called))) ∧
    (∀ (shuffle : List Int) (d1 d2 : Nat), d1 < d2 → d2 ≤ shuffle.length →
        seqString [] (shuffle.take d1) ≠ seqString [] (shuffle.take d2)) ∧
    roundHash [] [1] ≠ roundHash [] [1, 2] := by
  refine ⟨?_, ?_, ?_, by decide⟩
  · intro full c1 c2 hfull
    constructor <;> simp [roundHash, seqString, hfull]
  · intro full c hfull
    simp [roundHash, seqString, hfull]
  · intro shuffle d1 d2 h12 h2le heq
    have hs : ∀ l : List Int, seqString [] l = "prefix:" ++ joinComma l := fun l => rfl
    rw [hs, hs] at heq
    have hpre : List.IsPrefix (shuffle.take d1) (shuffle.take d2) := by
      refine ⟨(shuffle.take d2).drop d1, ?_⟩
      rw [show shuffle.take d1 = (shuffle.take d2).take d1 by
            rw [List.take_take, Nat.min_eq_left h12.le]]
      exact List.take_append_drop d1 (shuffle.take d2)
    have hlen : (shuffle.take d1).length < (shuffle.take d2).length := by
      rw [List.length_take, List.length_take]
      omega
    have hjc := joinComma_strict_prefix_length_lt _ _ hpre hlen
    have hlength := congrArg String.length heq
    rw [String.length_append, String.length_append] at hlength
    omega

/-- Witness for C6: a concrete full sequence groups two reveal depths
into one hash; without it the prefix string is hashed and depths 1 and 2
give different fingerprints. -/
theorem C6_round_fingerprint_witness :
    roundHash fullW [1, 2, 3] = roundHash fullW [1, 2, 3, 4, 5] ∧
    roundHash [] [1, 2, 3] = sha1hex (strBytes ("prefix:" ++ joinComma [1, 2, 3])) ∧
    seqString [] [1] ≠ seqString [] [1, 2] := by
  have h := C6_round_fingerprint
  refine ⟨(h.1 fullW [1, 2, 3] [1, 2, 3, 4, 5] (by decide)).1,
    h.2.1 [] [1, 2, 3] (by decide), ?_⟩
  have hx := h.2.2.1 [1, 2] 1 2 (by decide) (by decide)
  simpa using hx

theorem mapM_eq_none_of_mem {α β : Type} (f : α → Option β) (l : List α) (t : α)
    (ht : t ∈ l) (hf : f t = none) : l.mapM f = none := by
  induction l with
  | nil => simp at ht
  | cons a l ih =>
      rw [List.mapM_cons]
      rcases List.mem_cons.1 ht with rfl | htl
      · simp [hf]
      · have ihl : List.mapM.loop f l [] = none := ih htl
        cases hfa : f a <;> simp [hfa, ih htl, ihl]

/-- C8: a calledNumbers string containing a (non-blank) token that does
not parse as an integer is not rejected — the parsed called list
degrades to empty, every line evaluates to not-matched, and a claim that
reaches evaluation completes with win = false, an empty match result,
no rank, and no card mutation. -/
theorem C8_malformed_called_numbers (calledStr : String)
    (hbad : ∃ t ∈ splitComma (trimChars calledStr.data),
        trimChars t ≠ [] ∧ parseIntToken (String.mk t) = none) :
    parseCalled calledStr = [] ∧
    (∀ nums : List Int, computeWinningLines nums (parseCalled calledStr) = ⟨[], [], [], []⟩) ∧
    (∀ (st : VerifyState) (cardIdStr : String) (numbersFull : List JVal)
        (allowedCards : List String) (card : Card),
        (!allowedCards.isEmpty && !allowedCards.contains (pyStrip cardIdStr)) = false →
        st.cards.find? (fun c => c.cardId == pyStrip cardIdStr) = some card →
        (parseGridNums card.numbers).length = 25 →
        verifyCard st cardIdStr calledStr numbersFull allowedCards =
          (.ok false ⟨[], [], [], []⟩ none false,
           ⟨st.cards,
            st.logs ++ [⟨card.cardId, [], ⟨[], [], [], []⟩, false,
              roundHash numbersFull [], 0, none⟩]⟩)) := by
  have ha : parseCalled calledStr = [] := by
    simp only [parseCalled]
    by_cases hT : trimChars calledStr.data = []
    · rw [if_pos hT]
    · rw [if_neg hT]
      obtain ⟨t, htmem, htne, htfail⟩ := hbad
      rw [mapM_eq_none_of_mem _ _ t (List.mem_filter.2 ⟨htmem, by simpa using htne⟩) htfail]
  have hb : ∀ nums : List Int, computeWinningLines nums [] = ⟨[], [], [], []⟩ :=
    fun nums => rfl
  refine ⟨ha, fun nums => by rw [ha]; exact hb nums, ?_⟩
  intro st cardIdStr numbersFull allowedCards card hreg hfind hlen25
  simp only [verifyCard, ha, hreg, Bool.false_eq_true, if_false, hfind, hb]
  rw [if_neg (by omega)]
  simp [winOf]

/-- Witness for C8: the malformed token "x" empties the called list and
the claim completes as a non-win that only appends its audit entry. -/
theorem C8_malformed_called_numbers_witness :
    parseCalled "1,x,3" = [] ∧
    verifyCard stVerify "001" "1,x,3" [] [] =
      (.ok false ⟨[], [], [], []⟩ none false,
       ⟨stVerify.cards,
        stVerify.logs ++ [⟨"001", [], ⟨[], [], [], []⟩, false, roundHash [] [], 0, none⟩]⟩) := by
  have h := C8_malformed_called_numbers "1,x,3" ⟨['x'], by decide, by decide, by decide⟩
  exact ⟨h.1, h.2.2 stVerify "001" [] [] ⟨"001", numbersW, false⟩
    (by decide) (by decide) (by decide)⟩

theorem getD_used_update (cards : List Card) (cid : String) (i : Nat)
    (hi : i < cards.length) :
    (cards.map (fun c => if c.cardId == cid then { c with used := true } else c)).getD i cdef =
      (if (cards.getD i cdef).cardId == cid then { cards.getD i cdef with used := true }
       else cards.getD i cdef) := by
  unfold List.getD
  rw [List.get?_map, List.get?_eq_get hi]
  rfl

theorem getD_mem_of_lt (cards : List Card) (i : Nat) (hi : i < cards.length) :
    cards.getD i cdef ∈ cards := by
  unfold List.getD
  rw [List.get?_eq_get hi]
  apply List.get_mem

/-- C9: the used flag never reverts — every verification preserves card
count, identity and numbers and only ever raises used; a non-winning
claim changes nothing; on a completed claim the target card ends used
exactly when it was used or the claim won, other cards are untouched,
and alreadyUsed is returned true only when the claim itself won and the
card was already used before it; generation only appends new cards. -/
theorem C9_used_flag_one_way :
    (∀ (st : VerifyState) (cardIdStr calledStr : String) (numbersFull : List JVal)
        (allowedCards : List String) (r : VerifyResult) (st2 : VerifyState),
        verifyCard st cardIdStr calledStr numbersFull allowedCards = (r, st2) →
        st2.cards.length = st.cards.length ∧
        ∀ i < st.cards.length,
          (st2.cards.getD i cdef).cardId = (st.cards.getD i cdef).cardId ∧
          ((st.cards.getD i cdef).used = true → (st2.cards.getD i cdef).used = true) ∧
          (st2.cards.getD i cdef).numbers = (st.cards.getD i cdef).numbers) ∧
    (∀ (st : VerifyState) (cardIdStr calledStr : String) (numbersFull : List JVal)
        (allowedCards : List String) (win : Bool) (winning : Winning) (rank : Option Int)
        (au : Bool) (st2 : VerifyState) (card : Card),
        verifyCard st cardIdStr calledStr numbersFull allowedCards =
          (.ok win winning rank au, st2) →
        st.cards.find? (fun c => c.cardId == pyStrip cardIdStr) = some card →
        (cardIds st.cards).Nodup →
        au = (card.used && win) ∧
        (win = false → st2.cards = st.cards) ∧
        (∀ i < st.cards.length,
          ((st.cards.getD i cdef).cardId ≠ card.cardId →
            st2.cards.getD i cdef = st.cards.getD i cdef) ∧
          ((st.cards.getD i cdef).cardId = card.cardId →
            (st2.cards.getD i cdef).used = ((st.cards.getD i cdef).used || win)))) ∧
    (∀ (st : GenState) (keyStr countStr : String) (perms : Nat → String) (now : Int)
        (r : GenOutcome) (st2 : GenState),
        generateCard st keyStr countStr perms now = (r, st2) →
        ∃ ext : List Card, st2.cards = st.cards ++ ext) := by
  refine ⟨?_, ?_, ?_⟩
  · intro st cardIdStr calledStr numbersFull allowedCards r st2 h
    have hcards : st2.cards = st.cards ∨
        ∃ cid, st2.cards =
          st.cards.map (fun c => if c.cardId == cid then { c with used := true } else c) := by
      simp only [verifyCard] at h
      split at h
      · rw [Prod.mk.injEq] at h; exact Or.inl (by rw [← h.2])
      · split at h
        · rw [Prod.mk.injEq] at h; exact Or.inl (by rw [← h.2])
        · rename_i card hfind
          split at h
          · rw [Prod.mk.injEq] at h; exact Or.inl (by rw [← h.2])
          · rw [Prod.mk.injEq] at h
            rw [← h.2]
            dsimp only
            split
            · exact Or.inr ⟨card.cardId, rfl⟩
            · exact Or.inl rfl
    rcases hcards with hsame | ⟨cid, hupd⟩
    · rw [hsame]
      exact ⟨rfl, fun i hi => ⟨rfl, fun hu => hu, rfl⟩⟩
    · rw [hupd]
      refine ⟨List.length_map _ _, fun i hi => ?_⟩
      rw [getD_used_update st.cards cid i hi]
      split
      · exact ⟨rfl, fun _ => rfl, rfl⟩
      · exact ⟨rfl, fun hu => hu, rfl⟩
  · intro st cardIdStr calledStr numbersFull allowedCards win winning rank au st2 card
      h hfind hnodup
    simp only [verifyCard] at h
    split at h
    · exact absurd h (by simp)
    · split at h
      · exact absurd h (by simp)
      · rename_i card' hfind'
        rw [hfind] at hfind'
        injection hfind' with hcc
        subst hcc
        split at h
        · exact absurd h (by simp)
        · rw [Prod.mk.injEq, VerifyResult.ok.injEq] at h
          obtain ⟨⟨hwin, hwinning, hrank, hau⟩, hst⟩ := h
          subst hst
          refine ⟨by rw [← hau, hwin], ?_, ?_⟩
          · intro hwf
            dsimp only
            rw [hwin, hwf]
            simp
          · intro i hi
            dsimp only
            by_cases hcond : (winOf (computeWinningLines (parseGridNums card.numbers)
                (parseCalled calledStr)) && !card.used) = true
            · rw [if_pos hcond, getD_used_update st.cards card.cardId i hi]
              constructor
              · intro hne
                rw [if_neg (by simpa using hne)]
              · intro heqid
                rw [if_pos (by simpa using heqid)]
                rw [Bool.and_eq_true, Bool.not_eq_eq_eq_not, Bool.not_true] at hcond
                rw [← hwin, hcond.1]
                simp
            · rw [if_neg hcond]
              refine ⟨fun _ => rfl, fun heqid => ?_⟩
              have hgetcard : st.cards.getD i cdef = card := by
                have hinj := List.inj_on_of_nodup_map (f := Card.cardId)
                  (l := st.cards) (by exact hnodup)
                exact hinj (getD_mem_of_lt st.cards i hi)
                  (List.mem_of_find?_eq_some hfind) heqid
              rw [Bool.and_eq_true, Bool.not_eq_eq_eq_not, Bool.not_true] at hcond
              push_neg at hcond
              by_cases hwhat : winOf (computeWinningLines (parseGridNums card.numbers)
                  (parseCalled calledStr)) = true
              · have hused : card.used = true := by
                  by_contra hcu
                  exact absurd (hcond hwhat) (by simpa using hcu)
                rw [hgetcard, hused, ← hwin, hwhat]
                rfl
              · rw [← hwin]
                rw [Bool.not_eq_true] at hwhat
                rw [hwhat]
                simp
  · intro st keyStr countStr perms now r st2 h
    simp only [generateCard] at h
    split at h
    · rw [Prod.mk.injEq] at h
      exact ⟨[], by rw [← h.2]; simp⟩
    · split at h
      · split at h
        · rw [Prod.mk.injEq] at h
          exact ⟨[], by rw [← h.2]; simp⟩
        · split at h
          · rw [Prod.mk.injEq] at h
            exact ⟨[], by rw [← h.2]; simp⟩
          · rename_i cards2 newCards hloop
            rw [Prod.mk.injEq] at h
            obtain ⟨hcs, _⟩ := generateLoop_spec _ _ _ _ hloop
            exact ⟨newCards, by rw [← h.2]; exact hcs⟩
      · split at h
        · split at h
          · rw [Prod.mk.injEq] at h
            exact ⟨[], by rw [← h.2]; simp⟩
          · rename_i cards2 newCards hloop
            rw [Prod.mk.injEq] at h
            obtain ⟨hcs, _⟩ := generateLoop_spec _ _ _ _ hloop
            exact ⟨newCards, by rw [← h.2]; exact hcs⟩
        · rw [Prod.mk.injEq] at h
          exact ⟨[], by rw [← h.2]; simp⟩

/-- Witness for C9: a completed verification preserves the card count,
and a generation only appends to the card store. -/
theorem C9_used_flag_one_way_witness :
    (verifyCard stVerify "001" "1,2,3,4,5" [] []).2.cards.length = stVerify.cards.length ∧
    (∃ ext : List Card, (generateCard stQuota "K" "2" natPerm 0).2.cards =
      stQuota.cards ++ ext) := by
  refine ⟨(C9_used_flag_one_way.1 stVerify "001" "1,2,3,4,5" [] [] _ _ rfl).1,
    C9_used_flag_one_way.2.2 stQuota "K" "2" natPerm 0 _ _ rfl⟩

theorem contains_numbers_of_mem (store : List Card) (s : String)
    (h : s ∈ cardNumbers store) : (cardNumbers store).contains s = true := by
  simpa using h

theorem tryInsert_none_of_numbers_taken (store : List Card) (s : String)
    (h : s ∈ cardNumbers store) : tryInsert store s = none := by
  unfold tryInsert
  cases nextIdNum store with
  | none => rfl
  | some k =>
      dsimp only
      rw [if_pos]
      rw [contains_numbers_of_mem store s h]
      simp

theorem retryInsert_none_of_tryInsert_none (n : Nat) (store : List Card) (s : String)
    (h : tryInsert store s = none) : retryInsert n store s = none := by
  induction n with
  | zero => rfl
  | succ m ih =>
      unfold retryInsert
      rw [h, ih]

/-- C10: the 25-number permutation is drawn once per card, before the
allocate-and-insert retry loop — every attempt retries the same numbers
string (any successful insert stores exactly it); with fresh numbers an
attempt can fail only through the card-id computation or an id
collision; if the drawn permutation already exists in (every snapshot
of) the store, all five attempts fail and the batch loop, and with it
the whole request, aborts with no state change. -/
theorem C10_permutation_drawn_once :
    (∀ (envs : List (List Card)) (numbersStr : String),
        (∀ store ∈ envs, numbersStr ∈ cardNumbers store) →
        retryInsertEnv envs numbersStr = none) ∧
    (∀ (store : List Card) (numbersStr : String), numbersStr ∉ cardNumbers store →
        (tryInsert store numbersStr = none ↔
          nextIdNum store = none ∨
          ∃ k, nextIdNum store = some k ∧ formatId k ∈ cardIds store)) ∧
    (∀ (n : Nat) (store : List Card) (numbersStr : String) (store2 : List Card) (c : Card),
        retryInsert n store numbersStr = some (store2, c) → c.numbers = numbersStr) ∧
    (∀ (store : List Card) (numbersStr : String), numbersStr ∈ cardNumbers store →
        retryInsert 5 store numbersStr = none ∧
        ∀ ps : List String, generateLoop (numbersStr :: ps) store = none) ∧
    (∀ (st : GenState) (keyStr countStr : String) (perms : Nat → String) (now : Int)
        (st2 : GenState),
        generateCard st keyStr countStr perms now = (.error .allocationFailed, st2) →
        st2 = st) := by
  refine ⟨?_, ?_, ?_, ?_, ?_⟩
  · intro envs numbersStr hall
    induction envs with
    | nil => rfl
    | cons store rest ih =>
        unfold retryInsertEnv
        rw [tryInsert_none_of_numbers_taken store numbersStr (hall store (by simp))]
        exact ih (fun s hs => hall s (by simp [hs]))
  · intro store numbersStr hfresh
    unfold tryInsert
    cases hn : nextIdNum store with
    | none => simp
    | some k =>
        dsimp only
        have hnum : (cardNumbers store).contains numbersStr = false := by
          simpa using hfresh
        by_cases hid : formatId k ∈ cardIds store
        · rw [if_pos (by simp [hnum, hid])]
          simp only [true_iff]
          exact Or.inr ⟨k, rfl, hid⟩
        · rw [if_neg (by simp [hid, hfresh])]
          constructor
          · intro hbad
            exact absurd hbad (by simp)
          · rintro (hbad | ⟨k2, hk2, hmem2⟩)
            · exact absurd hbad (by simp)
            · rw [Option.some.injEq] at hk2
              subst hk2
              exact absurd hmem2 hid
  · intro n store numbersStr store2 c h
    exact (retryInsert_spec n store numbersStr store2 c h).2.1
  · intro store numbersStr hmem
    have h5 : retryInsert 5 store numbersStr = none :=
      retryInsert_none_of_tryInsert_none 5 store numbersStr
        (tryInsert_none_of_numbers_taken store numbersStr hmem)
    refine ⟨h5, fun ps => ?_⟩
    unfold generateLoop
    rw [h5]
  · intro st keyStr countStr perms now st2 h
    simp only [generateCard] at h
    split at h
    · exact absurd h (by simp)
    · split at h
      · split at h
        · exact absurd h (by simp)
        · split at h
          · rw [Prod.mk.injEq] at h
            exact h.2.symm
          · exact absurd h (by simp)
      · split at h
        · split at h
          · rw [Prod.mk.injEq] at h
            exact h.2.symm
          · exact absurd h (by simp)
        · exact absurd h (by simp)

/-- Witness for C10: with the permutation "p" already stored, both retry
loops fail, and a successful insert of a fresh permutation stores that
exact string. -/
theorem C10_permutation_drawn_once_witness :
    retryInsertEnv [[⟨"001", "p", false⟩], [⟨"001", "p", false⟩]] "p" = none ∧
    retryInsert 5 [⟨"001", "p", false⟩] "p" = none ∧
    ∀ store2 c, retryInsert 5 [] "q" = some (store2, c) → c.numbers = "q" := by
  have h := C10_permutation_drawn_once
  exact ⟨h.1 [[⟨"001", "p", false⟩], [⟨"001", "p", false⟩]] "p" (by decide),
    (h.2.2.2.1 [⟨"001", "p", false⟩] "p" (by decide)).1,
    fun store2 c hx => h.2.2.1 5 [] "q" store2 c hx⟩

end Bingo
